import Mathlib

/-!
# Verification of the type-ahead search widget (`src/assets/scripts/main.js`)

A shallow embedding of the coordination core of the widget:

* `Helpers.debounce` (main.js lines 14-24) as a timeline semantics
  `debounceRun`;
* the `searchTrack` success callback's result formatting
  (`data.results.splice(0, MAX_RESULTS).map(...)`, lines 364-373) as
  `formatSuccess`, returning both the display strings and the state the
  input array is left in (`Array.prototype.splice` mutates its receiver:
  `splice(0, n)` removes and returns the first `n` elements);
* the search session — `iTunesApi.searchTrack` (lines 103-117), the
  `HttpRequest` settle behaviour (lines 61-78) and the debounced
  `onChange` handler (lines 353-378) — as a step function `step` on
  `SessionState`;
* the history store `searchHistory` (lines 234-332) as `add` / `remove`
  on `HistoryState`.

The event loop is single-threaded and run-to-completion, so each DOM or
network event is one atomic `step`.  Cancellation (`request.abort()`) on
an in-flight request follows the XMLHttpRequest request error steps:
`readystatechange` fires synchronously with `readyState` DONE and
`status` 0, so the handler at lines 61-78 routes to `settings.error`
(one `console.error` from the onChange handler's error callback) and
`settings.complete`, and then detaches itself.  After that — and after
an ordinary settle, which also detaches the handler — no callback can
ever fire again for that handle, so a late network outcome for an
aborted or settled handle is a no-op.
-/

namespace MainJs

/-- One raw provider record, as consumed by the success callback
(`result.artistName`, `result.trackName`). -/
structure Record where
  artistName : String
  trackName : String
  deriving DecidableEq, Repr

/-- `MIN_TERM_LENGTH` (main.js line 339). -/
def MIN_TERM_LENGTH : Nat := 3

/-- `MAX_RESULTS` (main.js line 340). -/
def MAX_RESULTS : Nat := 5

/-- The display template of the success callback (line 369):
`result.artistName + ' - ' + result.trackName`. -/
def displayString (r : Record) : String :=
  r.artistName ++ " - " ++ r.trackName

/-- `data.results.splice(0, MAX_RESULTS)` (line 367): removes the first
`MAX_RESULTS` elements from the array and returns them.  First component
is the returned (removed) prefix, second is what the receiver array
holds afterwards. -/
def splice0 (xs : List Record) (n : Nat) : List Record × List Record :=
  (xs.take n, xs.drop n)

/-- The success callback's formatting step (lines 364-373): splice off the
first `MAX_RESULTS` records and map each through the display template.
First component is `formattedResults`; second is the state the caller's
`data.results` array is left in. -/
def formatSuccess (results : List Record) : List String × List Record :=
  let spliced := splice0 results MAX_RESULTS
  ((spliced.1).map displayString, spliced.2)

/-! ## Debouncer (`Helpers.debounce`, lines 14-24)

A debounced function owns a single timeout slot.  Each invocation clears
the pending timeout (if any) and schedules the wrapped callback to run
`time` milliseconds later with the current arguments.  `debounceRun`
computes, for a monotone timeline of invocations `(time, args)`, the
list of `(fireTime, args)` calls that actually reach the wrapped
callback: an invocation's timeout survives iff it fires strictly before
the next invocation (`clearTimeout` at the next invocation kills it
otherwise). -/

/-- Timeline semantics of a function wrapped by `Helpers.debounce` with
delay `delay`: input is the list of invocations in time order, output
the list of downstream calls of the wrapped callback. -/
def debounceRun (delay : Nat) : List (Nat × String) → List (Nat × String)
  | [] => []
  | (t, a) :: rest =>
    match rest with
    | [] => [(t + delay, a)]
    | (t', _) :: _ =>
      if t + delay ≤ t' then (t + delay, a) :: debounceRun delay rest
      else debounceRun delay rest

/-- A burst: consecutive invocations are in time order and each arrives
before the previous invocation's timeout would fire. -/
def burst (delay : Nat) : List (Nat × String) → Bool
  | [] => true
  | [_] => true
  | (t, _) :: (t', a') :: rest =>
    (decide (t ≤ t') && decide (t' < t + delay)) && burst delay ((t', a') :: rest)

/-! ## Search session

`iTunesApi` keeps one module variable `request` (the current handle, or
null).  `searchTrack` aborts the current handle if any, then creates a
fresh `HttpRequest` and stores it in `request`; its `complete` callback
resets `request` to null.  `HttpRequest` invokes `success` on a 200
settle, `error` otherwise, then `complete`, then detaches its handler —
so a handle settles at most once, and an aborted handle never settles.
The debounced `onChange` handler (lines 353-378) empties the results for
a too-short value and otherwise calls `searchTrack` with callbacks that
write the formatted results / log an error. -/

/-- One `HttpRequest` handle ever created by `searchTrack`, identified by
its position in `SessionState.reqs`. -/
structure Req where
  term : String
  aborted : Bool
  settled : Bool
  deriving DecidableEq, Repr

/-- The mutable state touched by the search pipeline: all handles ever
created (`reqs`), the `request` variable of `iTunesApi` (`current`, as an
index into `reqs`), `gui.searchResults.data` (`displayed`), and the
number of `console.error` calls made by the error callback (`errors`). -/
structure SessionState where
  reqs : List Req
  current : Option Nat
  displayed : List String
  errors : Nat
  deriving DecidableEq, Repr

/-- An external event the core reacts to: a (debounced) input-change
with the input's value, or the transport settling handle `i` with a
success payload or a failure. -/
inductive Event where
  | input : String → Event
  | respond : Nat → Option (List Record) → Event
  deriving DecidableEq, Repr

/-- Replace the request at index `i` by `f` of it (used for
`request.abort()` and for marking a handle settled). -/
def updateReq : List Req → Nat → (Req → Req) → List Req
  | [], _, _ => []
  | r :: rs, 0, f => f r :: rs
  | r :: rs, i + 1, f => r :: updateReq rs i f

/-- A handle is pending when it exists, has not been aborted and has not
settled. -/
def isPending (s : SessionState) (i : Nat) : Bool :=
  match s.reqs.get? i with
  | some r => !r.aborted && !r.settled
  | none => false

/-! One run-to-completion reaction of the core to an event.

`Event.input v` is the debounced `onChange` handler: if
`!value || value.length < MIN_TERM_LENGTH` it calls
`gui.searchResults.empty()` and returns (the `!value` test is subsumed:
an empty string has length `0 < 3`); otherwise `iTunes.searchTrack` runs:
`if (request) request.abort()` — which, on an in-flight handle,
synchronously fires `readystatechange` with status 0, so one
`console.error` is logged and `complete` resets `request` to null —
then a fresh handle is created and becomes `request`.

`Event.respond i outcome` is the transport settling handle `i`.  An
aborted handle never receives it (its fetch was terminated and its
handler detached during the abort-time dispatch), and a settled handle
has detached its `onreadystatechange`, so both are no-ops.  Otherwise
the handle settles: on success `formattedResults` are computed and
`gui.searchResults.set` stores them; on failure `console.error` is
called; in both cases `complete` resets `request` to null. -/

/-- `if (request) request.abort()` (line 104), effect on the request
handles: the current handle, if there is one, is marked aborted.  The
synchronous callback dispatch the abort triggers is accounted for by
`abortErrorCount` (its only observable effect: `complete` also sets
`request = null`, which the assignment of the fresh handle immediately
overwrites). -/
def abortCurrent (s : SessionState) : List Req :=
  match s.current with
  | some i => updateReq s.reqs i (fun r => { r with aborted := true })
  | none => s.reqs

/-- `if (request) request.abort()` (line 104), effect on the error log:
aborting an in-flight request runs the XHR request error steps —
`readystatechange` fires synchronously with `readyState` DONE and
`status` 0, so `HttpRequest` (lines 61-78) invokes `settings.error` and
the onChange handler's error callback logs one `console.error`.  A
handle that is already settled (handler detached) or already aborted
(state unsent) fires nothing. -/
def abortErrorCount (s : SessionState) : Nat :=
  match s.current with
  | some i => if isPending s i then 1 else 0
  | none => 0

/-- One run-to-completion reaction of the core to an event (see the
section comment above for the line-by-line mapping). -/
def step (s : SessionState) (e : Event) : SessionState :=
  match e with
  | .input v =>
    if v.length < MIN_TERM_LENGTH then
      { s with displayed := [] }
    else
      let reqs1 := abortCurrent s
      { s with reqs := reqs1 ++ [⟨v, false, false⟩],
               current := some reqs1.length,
               errors := s.errors + abortErrorCount s }
  | .respond i outcome =>
    match s.reqs.get? i with
    | none => s
    | some r =>
      if r.aborted || r.settled then s
      else
        let reqs1 := updateReq s.reqs i (fun r => { r with settled := true })
        match outcome with
        | some results =>
          { s with reqs := reqs1,
                   displayed := (formatSuccess results).1,
                   current := none }
        | none =>
          { s with reqs := reqs1, errors := s.errors + 1, current := none }

/-- Page-load state: no handle, `request = null`, empty results list, no
errors logged. -/
def initState : SessionState := ⟨[], none, [], 0⟩

/-- The state after the core has processed the events of `tr` in order. -/
def reach (tr : List Event) : SessionState :=
  tr.foldl step initState

/-- Session invariant: a pending handle is the current one.  This is the
key structural fact behind the "at most one pending request" claim: two
pending handles would both have to be the current one. -/
def Inv (s : SessionState) : Prop :=
  ∀ i, isPending s i = true → s.current = some i

/-! ## History store (`searchHistory`, lines 234-332) -/

/-- One entry of `searchHistory.data`: `{ created: new Date(), title }`,
with the creation time as an abstract timestamp. -/
structure HistoryEntry where
  created : Nat
  title : String
  deriving DecidableEq, Repr

/-- The state of a `searchHistory` instance: its `data` array, the
visibility of its list element (`listElement.style.display`), and the
number of `console.warn` calls made for rejected duplicates. -/
structure HistoryState where
  data : List HistoryEntry
  visible : Bool
  warnings : Nat
  deriving DecidableEq, Repr

/-- `isDuplicate` (lines 277-281): does some entry have exactly this
title? -/
def isDuplicate (data : List HistoryEntry) (title : String) : Bool :=
  data.any (fun item => item.title == title)

/-- `searchHistory.add` (lines 244-256): reject duplicates with a
`console.warn` and no mutation; otherwise push a new entry and run
`updateList`, whose last line toggles visibility to
`self.data.length > 0`. -/
def add (s : HistoryState) (now : Nat) (title : String) : HistoryState :=
  if isDuplicate s.data title then
    { s with warnings := s.warnings + 1 }
  else
    let data1 := s.data ++ [⟨now, title⟩]
    { s with data := data1, visible := decide (data1.length > 0) }

/-- The `forEach` loop body of `searchHistory.remove` (lines 263-267),
iterated over the live array: JavaScript's `Array.prototype.forEach`
fixes the index range `0 .. originalLength - 1` up front, reads the
element at the current index from the *current* array state (skipping
indices no longer present), and `splice(index, 1)` deletes in place.
`k` is the current index, the second argument the number of indices
still to visit. -/
def removePass (title : String) : Nat → Nat → List HistoryEntry → List HistoryEntry
  | _, 0, data => data
  | k, steps + 1, data =>
    let data1 := match data.get? k with
      | some item => if item.title == title then data.eraseIdx k else data
      | none => data
    removePass title (k + 1) steps data1

/-- The effect of `searchHistory.remove` on `self.data`. -/
def removeData (title : String) (data : List HistoryEntry) : List HistoryEntry :=
  removePass title 0 data.length data

/-- `searchHistory.remove` (lines 262-270): run the splice loop, then
`updateList` re-syncs visibility.  No warning or error path exists. -/
def remove (s : HistoryState) (title : String) : HistoryState :=
  let data1 := removeData title s.data
  { s with data := data1, visible := decide (data1.length > 0) }

/-- Accumulator reformulation of the `forEach`/`splice` loop of
`remove`, used to reason about `removePass`: `acc` holds the elements
at indices below the loop index (already passed over), `rest` the
elements from the loop index on.  Deleting the element at the loop index
shifts its successor into the already-passed region, so that successor
is never examined — the well-known skip of `forEach` + `splice`.
`removePass_eq_removeGo` proves this equivalent to the direct index
translation. -/
def removeGo (title : String) : Nat → List HistoryEntry → List HistoryEntry → List HistoryEntry
  | 0, acc, rest => acc ++ rest
  | steps + 1, acc, rest =>
    match rest with
    | [] => acc
    | e :: rest' =>
      if e.title == title then
        match rest' with
        | [] => acc
        | f :: rest'' => removeGo title steps (acc ++ [f]) rest''
      else removeGo title steps (acc ++ [e]) rest'

/-! ## Basic lemmas about `updateReq` and `isPending` -/

theorem length_updateReq (rs : List Req) (i : Nat) (f : Req → Req) :
    (updateReq rs i f).length = rs.length := by
  induction rs generalizing i with
  | nil => rfl
  | cons r rs ih =>
    cases i with
    | zero => rfl
    | succ i => simp [updateReq, ih]

theorem get?_updateReq_self (rs : List Req) (i : Nat) (f : Req → Req) :
    (updateReq rs i f).get? i = (rs.get? i).map f := by
  induction rs generalizing i with
  | nil => cases i <;> rfl
  | cons r rs ih =>
    cases i with
    | zero => rfl
    | succ i => simpa [updateReq] using ih i

theorem get?_updateReq_ne (rs : List Req) (i j : Nat) (f : Req → Req)
    (h : i ≠ j) : (updateReq rs i f).get? j = rs.get? j := by
  induction rs generalizing i j with
  | nil => cases i <;> rfl
  | cons r rs ih =>
    cases i with
    | zero =>
      cases j with
      | zero => exact absurd rfl h
      | succ j => rfl
    | succ i =>
      cases j with
      | zero => rfl
      | succ j =>
        simpa [updateReq] using ih i j (fun hij => h (by simp [hij]))

theorem step_respond_none (s : SessionState) (i : Nat) (o : Option (List Record))
    (hg : s.reqs.get? i = none) : step s (.respond i o) = s := by
  simp only [step, hg]

theorem step_respond_stale (s : SessionState) (i : Nat) (o : Option (List Record)) (r : Req)
    (hg : s.reqs.get? i = some r) (hrs : (r.aborted || r.settled) = true) :
    step s (.respond i o) = s := by
  simp only [step, hg]
  rw [if_pos hrs]

theorem step_respond_live (s : SessionState) (i : Nat) (o : Option (List Record)) (r : Req)
    (hg : s.reqs.get? i = some r) (hrs : (r.aborted || r.settled) = false) :
    (step s (.respond i o)).reqs = updateReq s.reqs i (fun r => { r with settled := true })
    ∧ (step s (.respond i o)).current = none := by
  simp only [step, hg]
  rw [if_neg (by simp [hrs])]
  rcases o with _ | results <;> exact ⟨rfl, rfl⟩

theorem length_abortCurrent (s : SessionState) :
    (abortCurrent s).length = s.reqs.length := by
  unfold abortCurrent
  cases s.current with
  | none => rfl
  | some i => exact length_updateReq s.reqs i _

theorem step_input_short (s : SessionState) (v : String)
    (hv : v.length < MIN_TERM_LENGTH) :
    step s (.input v) = { s with displayed := [] } := by
  simp only [step, hv, if_true]

theorem step_input_long (s : SessionState) (v : String)
    (hv : ¬ v.length < MIN_TERM_LENGTH) :
    step s (.input v) = { s with reqs := abortCurrent s ++ [⟨v, false, false⟩],
                                 current := some (abortCurrent s).length,
                                 errors := s.errors + abortErrorCount s } := by
  simp only [step, hv, if_false]

theorem step_respond_success (s : SessionState) (i : Nat) (results : List Record) (r : Req)
    (hg : s.reqs.get? i = some r) (hrs : (r.aborted || r.settled) = false) :
    step s (.respond i (some results))
      = { s with reqs := updateReq s.reqs i (fun r => { r with settled := true }),
                 displayed := (formatSuccess results).1,
                 current := none } := by
  simp only [step, hg]
  rw [if_neg (by simp [hrs])]

theorem step_respond_failure (s : SessionState) (i : Nat) (r : Req)
    (hg : s.reqs.get? i = some r) (hrs : (r.aborted || r.settled) = false) :
    step s (.respond i none)
      = { s with reqs := updateReq s.reqs i (fun r => { r with settled := true }),
                 errors := s.errors + 1,
                 current := none } := by
  simp only [step, hg]
  rw [if_neg (by simp [hrs])]

theorem isPending_iff (s : SessionState) (i : Nat) :
    isPending s i = true ↔
      ∃ r, s.reqs.get? i = some r ∧ r.aborted = false ∧ r.settled = false := by
  unfold isPending
  cases h : s.reqs.get? i with
  | none => simp
  | some r =>
    simp only [Option.some.injEq]
    constructor
    · intro hp
      refine ⟨r, rfl, ?_, ?_⟩ <;> revert hp <;>
        cases r.aborted <;> cases r.settled <;> simp
    · rintro ⟨r', rfl, h1, h2⟩
      simp [h1, h2]

/-! ## The session invariant

Every pending handle is the handle stored in `iTunesApi`'s `request`
variable. -/

theorem inv_init : Inv initState := by
  intro i h
  simp [isPending, initState] at h

theorem step_inv (s : SessionState) (e : Event) (hs : Inv s) :
    Inv (step s e) := by
  intro j hj
  rcases e with v | ⟨i, outcome⟩
  · by_cases hv : v.length < MIN_TERM_LENGTH
    · -- too-short input: requests untouched
      simp only [step, hv, if_true] at hj ⊢
      exact hs j hj
    · -- searchTrack: abort current, append fresh handle
      simp only [step, hv, if_false] at hj ⊢
      rcases isPending_iff _ _ |>.mp hj with ⟨r, hr, hab, hst⟩
      simp only at hr
      by_cases hlt : j < (abortCurrent s).length
      · -- a handle that already existed: it must be pending in s, hence
        -- current in s, hence aborted by searchTrack — contradiction
        rw [List.get?_append hlt] at hr
        exfalso
        cases hc : s.current with
        | none =>
          simp only [abortCurrent, hc] at hr
          have : isPending s j = true :=
            (isPending_iff _ _).mpr ⟨r, hr, hab, hst⟩
          have := hs j this
          rw [hc] at this
          exact Option.noConfusion this
        | some c =>
          simp only [abortCurrent, hc] at hr
          by_cases hcj : c = j
          · subst hcj
            rw [get?_updateReq_self] at hr
            cases hg : s.reqs.get? c with
            | none => rw [hg] at hr; exact Option.noConfusion hr
            | some r0 =>
              rw [hg] at hr
              have : r = { r0 with aborted := true } :=
                (Option.some_inj.mp hr).symm
              rw [this] at hab
              exact Bool.noConfusion hab
          · rw [get?_updateReq_ne _ _ _ _ hcj] at hr
            have : isPending s j = true :=
              (isPending_iff _ _).mpr ⟨r, hr, hab, hst⟩
            have := hs j this
            rw [hc] at this
            exact hcj (Option.some_inj.mp this)
      · -- the fresh handle: it is the new current
        have hle : (abortCurrent s).length ≤ j := Nat.le_of_not_lt hlt
        rw [List.get?_append_right hle] at hr
        have hj0 : j - (abortCurrent s).length = 0 := by
          cases hd : j - (abortCurrent s).length with
          | zero => rfl
          | succ n => rw [hd] at hr; exact Option.noConfusion hr
        have : j = (abortCurrent s).length := Nat.le_antisymm
          (by omega) hle
        simp [this]
  · -- a settle: afterwards nothing is pending (current handle settles,
    -- others were already not pending)
    cases hg : s.reqs.get? i with
    | none =>
      have hid := step_respond_none s i outcome hg
      rw [hid] at hj
      rw [hid]
      exact hs j hj
    | some r =>
      by_cases hrs : (r.aborted || r.settled) = true
      · have hid := step_respond_stale s i outcome r hg hrs
        rw [hid] at hj
        rw [hid]
        exact hs j hj
      · exfalso
        have hstep := (step_respond_live s i outcome r hg
          (Bool.not_eq_true _ ▸ hrs : (r.aborted || r.settled) = false)).1
        rcases isPending_iff _ _ |>.mp hj with ⟨r', hr', hab, hst⟩
        rw [hstep] at hr'
        by_cases hij : i = j
        · subst hij
          rw [get?_updateReq_self, hg] at hr'
          have : r' = { r with settled := true } :=
            (Option.some_inj.mp hr').symm
          rw [this] at hst
          exact Bool.noConfusion hst
        · rw [get?_updateReq_ne _ _ _ _ hij] at hr'
          have hpj : isPending s j = true :=
            (isPending_iff _ _).mpr ⟨r', hr', hab, hst⟩
          have hpi : isPending s i = true := by
            unfold isPending
            rw [hg]
            simp only [Bool.or_eq_true, not_or, Bool.not_eq_true] at hrs
            simp [hrs.1, hrs.2]
          have := (hs i hpi).symm.trans (hs j hpj)
          exact hij (Option.some_inj.mp this)

theorem inv_foldl (tr : List Event) (s : SessionState) (hs : Inv s) :
    Inv (tr.foldl step s) := by
  induction tr generalizing s with
  | nil => exact hs
  | cons e tr ih => exact ih _ (step_inv s e hs)

theorem inv_reach (tr : List Event) : Inv (reach tr) :=
  inv_foldl tr initState inv_init

theorem get?_some_lt_length {l : List Req} {i : Nat} {r : Req}
    (h : l.get? i = some r) : i < l.length := by
  induction l generalizing i with
  | nil => cases i <;> exact Option.noConfusion h
  | cons a l ih =>
    cases i with
    | zero => exact Nat.succ_pos _
    | succ i => exact Nat.succ_lt_succ (ih h)

/-! ## The claims about the search session -/

/-- C1: in every reachable state at most one handle is pending; and when
the change handler runs `searchTrack` (term long enough), any previously
pending handle is aborted, while the newly created handle is pending and
is the handle `request` now holds. -/
theorem at_most_one_pending (tr : List Event) (v : String)
    (hv : ¬ v.length < MIN_TERM_LENGTH) :
    (∀ i j, isPending (reach tr) i = true → isPending (reach tr) j = true → i = j)
  ∧ (∀ i, isPending (reach tr) i = true →
      (step (reach tr) (Event.input v)).reqs.get? i
        = ((reach tr).reqs.get? i).map (fun r => { r with aborted := true }))
  ∧ isPending (step (reach tr) (Event.input v)) ((reach tr).reqs.length) = true
  ∧ (step (reach tr) (Event.input v)).current = some ((reach tr).reqs.length) := by
  have hs := inv_reach tr
  refine ⟨?_, ?_, ?_, ?_⟩
  · intro i j hi hj
    exact Option.some_inj.mp ((hs i hi).symm.trans (hs j hj))
  · intro i hi
    have hc := hs i hi
    rw [step_input_long _ _ hv]
    have hlt : i < (abortCurrent (reach tr)).length := by
      rw [length_abortCurrent]
      rcases (isPending_iff _ _).mp hi with ⟨r, hr, _, _⟩
      exact get?_some_lt_length hr
    show (abortCurrent (reach tr) ++ [Req.mk v false false]).get? i = _
    rw [List.get?_append hlt]
    simp only [abortCurrent, hc]
    rw [get?_updateReq_self]
  · rw [step_input_long _ _ hv]
    unfold isPending
    show (match (abortCurrent (reach tr) ++ [Req.mk v false false]).get? (reach tr).reqs.length with
      | some r => !r.aborted && !r.settled
      | none => false) = true
    rw [← length_abortCurrent (reach tr), List.get?_append_right (Nat.le_refl _), Nat.sub_self]
    rfl
  · rw [step_input_long _ _ hv]
    show some (abortCurrent (reach tr)).length = _
    rw [length_abortCurrent]

theorem at_most_one_pending_witness :
    (∀ i j, isPending (reach [Event.input "abc"]) i = true →
        isPending (reach [Event.input "abc"]) j = true → i = j)
  ∧ (∀ i, isPending (reach [Event.input "abc"]) i = true →
      (step (reach [Event.input "abc"]) (Event.input "abd")).reqs.get? i
        = ((reach [Event.input "abc"]).reqs.get? i).map (fun r => { r with aborted := true }))
  ∧ isPending (step (reach [Event.input "abc"]) (Event.input "abd"))
      ((reach [Event.input "abc"]).reqs.length) = true
  ∧ (step (reach [Event.input "abc"]) (Event.input "abd")).current
      = some ((reach [Event.input "abc"]).reqs.length) :=
  at_most_one_pending [Event.input "abc"] "abd" (by decide)

/-- C2: in a reachable state, the displayed result list is changed by a
step only when that step is either the too-short-input empty signal
(leaving it empty) or a successful settle of the handle that is both
pending and the session's current one (leaving the formatted results of
that response).  In particular a provider failure, and any settle of an
aborted or superseded handle, leave the displayed list untouched. -/
theorem displayed_frame_condition (tr : List Event) (e : Event)
    (h : (step (reach tr) e).displayed ≠ (reach tr).displayed) :
    (∃ v, e = Event.input v ∧ v.length < MIN_TERM_LENGTH
        ∧ (step (reach tr) e).displayed = [])
  ∨ (∃ i results, e = Event.respond i (some results)
      ∧ (reach tr).current = some i ∧ isPending (reach tr) i = true
      ∧ (step (reach tr) e).displayed = (formatSuccess results).1) := by
  rcases e with v | ⟨i, outcome⟩
  · by_cases hv : v.length < MIN_TERM_LENGTH
    · exact Or.inl ⟨v, rfl, hv, by rw [step_input_short _ _ hv]⟩
    · exact absurd (by rw [step_input_long _ _ hv]) h
  · cases hg : (reach tr).reqs.get? i with
    | none => exact absurd (by rw [step_respond_none _ _ _ hg]) h
    | some r =>
      by_cases hrs : (r.aborted || r.settled) = true
      · exact absurd (by rw [step_respond_stale _ _ _ _ hg hrs]) h
      · have hrs' : (r.aborted || r.settled) = false := Bool.not_eq_true _ ▸ hrs
        have hp : isPending (reach tr) i = true := by
          simp only [Bool.or_eq_true, not_or, Bool.not_eq_true] at hrs
          exact (isPending_iff _ _).mpr ⟨r, hg, hrs.1, hrs.2⟩
        rcases outcome with _ | results
        · exact absurd (by rw [step_respond_failure _ _ _ hg hrs']) h
        · exact Or.inr ⟨i, results, rfl, inv_reach tr i hp, hp,
            by rw [step_respond_success _ _ _ _ hg hrs']⟩

theorem displayed_frame_condition_witness :
    (∃ v, Event.respond 0 (some [Record.mk "A" "T"]) = Event.input v
        ∧ v.length < MIN_TERM_LENGTH
        ∧ (step (reach [Event.input "abc"])
            (Event.respond 0 (some [Record.mk "A" "T"]))).displayed = [])
  ∨ (∃ i results, Event.respond 0 (some [Record.mk "A" "T"]) = Event.respond i (some results)
      ∧ (reach [Event.input "abc"]).current = some i
      ∧ isPending (reach [Event.input "abc"]) i = true
      ∧ (step (reach [Event.input "abc"])
          (Event.respond 0 (some [Record.mk "A" "T"]))).displayed
        = (formatSuccess results).1) :=
  displayed_frame_condition [Event.input "abc"]
    (Event.respond 0 (some [Record.mk "A" "T"])) (by decide)

/-- A settle delivered for a handle that is not pending — aborted,
already settled, or nonexistent — leaves the state unchanged. -/
theorem respond_not_pending_noop (s : SessionState) (i : Nat)
    (o : Option (List Record))
    (h : isPending s i = false) : step s (.respond i o) = s := by
  cases hg : s.reqs.get? i with
  | none => exact step_respond_none s i o hg
  | some r =>
    apply step_respond_stale s i o r hg
    unfold isPending at h
    rw [hg] at h
    cases ha : r.aborted <;> cases hb : r.settled <;>
      simp [ha, hb] at h ⊢

/-- C3 counterexample: superseding the pending request for "abc" with a
request for "abcd" surfaces an error for the cancelled request — the
abort synchronously fires its `readystatechange` with status 0, the
error callback runs and one `console.error` is logged — even though no
network outcome was ever delivered for handle 0 (no `respond` event
occurs in this trace).  This refutes the claim's "never surfaced as an
error (no error callback/log fires for it)". -/
theorem superseding_logs_error_for_cancelled :
    (reach [Event.input "abc"]).errors = 0
  ∧ isPending (reach [Event.input "abc"]) 0 = true
  ∧ (reach [Event.input "abc", Event.input "abcd"]).errors = 1
  ∧ isPending (reach [Event.input "abc", Event.input "abcd"]) 0 = false := by
  decide

/-- C3 amended: the late network outcome of a cancelled/superseded (or
already settled) handle is silently discarded — its delivery is a
complete no-op, changing neither the display, nor the error log, nor
any handle — but the cancellation itself is not silent: when
`searchTrack` supersedes a pending request, the abort synchronously
routes through the error callback and exactly one error is logged for
the cancelled request at supersede time (and none when no request was
pending). -/
theorem stale_outcome_noop_but_abort_logs (tr : List Event) (i : Nat)
    (o : Option (List Record)) (v : String)
    (hp : isPending (reach tr) i = false) (hv : ¬ v.length < MIN_TERM_LENGTH) :
    step (reach tr) (.respond i o) = reach tr
  ∧ ((∃ j, isPending (reach tr) j = true) →
      (step (reach tr) (Event.input v)).errors = (reach tr).errors + 1)
  ∧ ((∀ j, isPending (reach tr) j = false) →
      (step (reach tr) (Event.input v)).errors = (reach tr).errors) := by
  refine ⟨respond_not_pending_noop _ _ _ hp, ?_, ?_⟩
  · rintro ⟨j, hj⟩
    have hc := inv_reach tr j hj
    rw [step_input_long _ _ hv]
    show (reach tr).errors + abortErrorCount (reach tr) = (reach tr).errors + 1
    unfold abortErrorCount
    rw [hc]
    show (reach tr).errors + (if isPending (reach tr) j = true then 1 else 0)
      = (reach tr).errors + 1
    rw [if_pos hj]
  · intro hall
    rw [step_input_long _ _ hv]
    show (reach tr).errors + abortErrorCount (reach tr) = (reach tr).errors
    unfold abortErrorCount
    cases hc : (reach tr).current with
    | none => rfl
    | some j =>
      show (reach tr).errors + (if isPending (reach tr) j = true then 1 else 0)
        = (reach tr).errors
      rw [if_neg (by simp [hall j])]
      rfl

theorem stale_outcome_noop_but_abort_logs_witness :
    step (reach [Event.input "abc", Event.input "abcd"])
        (Event.respond 0 (some [Record.mk "A" "T"]))
      = reach [Event.input "abc", Event.input "abcd"]
  ∧ (step (reach [Event.input "abc", Event.input "abcd"])
        (Event.input "abcde")).errors
      = (reach [Event.input "abc", Event.input "abcd"]).errors + 1 :=
  ⟨(stale_outcome_noop_but_abort_logs [Event.input "abc", Event.input "abcd"] 0
      (some [Record.mk "A" "T"]) "abcde" (by decide) (by decide)).1,
   (stale_outcome_noop_but_abort_logs [Event.input "abc", Event.input "abcd"] 0
      (some [Record.mk "A" "T"]) "abcde" (by decide) (by decide)).2.1 ⟨1, by decide⟩⟩

/-- C4 counterexample: after `searchTrack` has a pending request for
"abc", the too-short input "ab" empties the displayed results and never
reaches the provider, but the pending request is NOT cancelled: it is
still pending afterwards, and its later successful settle overwrites the
emptied display.  This refutes the claim's final clause ("that pending
request is cancelled"). -/
theorem short_term_leaves_pending_uncancelled :
    isPending (reach [Event.input "abc"]) 0 = true
  ∧ (step (reach [Event.input "abc"]) (Event.input "ab")).displayed = []
  ∧ (step (reach [Event.input "abc"]) (Event.input "ab")).reqs
      = (reach [Event.input "abc"]).reqs
  ∧ isPending (step (reach [Event.input "abc"]) (Event.input "ab")) 0 = true
  ∧ (step (step (reach [Event.input "abc"]) (Event.input "ab"))
        (Event.respond 0 (some [Record.mk "A" "T"]))).displayed = ["A - T"] := by
  decide

/-- C4 amended: for every term shorter than the minimum, the change
handler never invokes the provider (no handle is created and no existing
handle is touched, so in particular no pending request is cancelled) and
the displayed results become empty. -/
theorem short_term_empties_without_provider (tr : List Event) (v : String)
    (hv : v.length < MIN_TERM_LENGTH) :
    (step (reach tr) (Event.input v)).reqs = (reach tr).reqs
  ∧ (step (reach tr) (Event.input v)).displayed = []
  ∧ (step (reach tr) (Event.input v)).current = (reach tr).current
  ∧ (step (reach tr) (Event.input v)).errors = (reach tr).errors := by
  rw [step_input_short _ _ hv]
  exact ⟨rfl, rfl, rfl, rfl⟩

theorem short_term_empties_without_provider_witness :
    (step (reach [Event.input "abc"]) (Event.input "ab")).reqs
      = (reach [Event.input "abc"]).reqs
  ∧ (step (reach [Event.input "abc"]) (Event.input "ab")).displayed = []
  ∧ (step (reach [Event.input "abc"]) (Event.input "ab")).current
      = (reach [Event.input "abc"]).current
  ∧ (step (reach [Event.input "abc"]) (Event.input "ab")).errors
      = (reach [Event.input "abc"]).errors :=
  short_term_empties_without_provider [Event.input "abc"] "ab" (by decide)

/-! ## The claim about the debouncer -/

/-- C5: when `N ≥ 1` invocations (`pre` followed by the last call
`(t, a)`) form a burst — each arriving within the delay window of its
predecessor — exactly one downstream call of the wrapped callback
happens, scheduled `delay` after the last invocation and carrying the
last invocation's argument; the earlier invocations' scheduled runs are
all cancelled. -/
theorem debounce_collapses_burst (delay : Nat) (pre : List (Nat × String))
    (t : Nat) (a : String)
    (hb : burst delay (pre ++ [(t, a)]) = true) :
    debounceRun delay (pre ++ [(t, a)]) = [(t + delay, a)] := by
  induction pre with
  | nil => rfl
  | cons p pre' ih =>
    rcases p with ⟨t0, a0⟩
    cases pre' with
    | nil =>
      simp only [burst, List.cons_append, List.nil_append,
        Bool.and_eq_true, decide_eq_true_eq] at hb
      simp only [debounceRun, List.append_eq, List.cons_append, List.nil_append]
      rw [if_neg (Nat.not_le_of_lt hb.1.2)]
    | cons q pre'' =>
      rcases q with ⟨t1, a1⟩
      simp only [burst, List.cons_append, Bool.and_eq_true, decide_eq_true_eq] at hb
      simp only [debounceRun, List.append_eq, List.cons_append]
      rw [if_neg (Nat.not_le_of_lt hb.1.2)]
      exact ih (by simp only [burst, List.cons_append, Bool.and_eq_true,
        decide_eq_true_eq]; exact hb.2)

theorem debounce_collapses_burst_witness :
    debounceRun 250 [(0, "a"), (100, "ab"), (200, "abc")] = [(450, "abc")] :=
  debounce_collapses_burst 250 [(0, "a"), (100, "ab")] 200 "abc" (by decide)

/-! ## The claims about the result formatting -/

/-- C6: the strings handed to `gui.searchResults.set` are exactly the
first `MAX_RESULTS` provider records, in provider order, each rendered
as `artistName - trackName`; with fewer records there is no padding:
the output length is `min` of the input length and `MAX_RESULTS`. -/
theorem format_first_five_in_order (records : List Record) :
    (formatSuccess records).1 = (records.take MAX_RESULTS).map displayString
  ∧ (formatSuccess records).1.length = min records.length MAX_RESULTS := by
  constructor
  · rfl
  · simp [formatSuccess, splice0, Nat.min_comm]

/-- C7 counterexample: on seven records the caller's `data.results`
array is NOT left unchanged — `splice` removes the first five elements
in place, so after formatting the array holds only the last two.  This
refutes the claim that formatting does not mutate its input. -/
theorem format_mutates_seven_records :
    (formatSuccess [Record.mk "A" "T1", Record.mk "A" "T2", Record.mk "A" "T3",
        Record.mk "A" "T4", Record.mk "A" "T5", Record.mk "A" "T6", Record.mk "A" "T7"]).2
      ≠ [Record.mk "A" "T1", Record.mk "A" "T2", Record.mk "A" "T3",
        Record.mk "A" "T4", Record.mk "A" "T5", Record.mk "A" "T6", Record.mk "A" "T7"] := by
  decide

/-- C7 amended: formatting mutates the caller's record array — after
the call it holds exactly the records beyond the first `MAX_RESULTS` —
and it is left unchanged only when it was empty to begin with. -/
theorem format_leaves_suffix_in_input (records : List Record) :
    (formatSuccess records).2 = records.drop MAX_RESULTS
  ∧ ((formatSuccess records).2 = records ↔ records = []) := by
  refine ⟨rfl, ?_, ?_⟩
  · intro h
    cases hr : records with
    | nil => rfl
    | cons r rs =>
      exfalso
      rw [hr] at h
      have hlen := congrArg List.length h
      simp only [formatSuccess, splice0, MAX_RESULTS,
        List.length_drop, List.length_cons] at hlen
      omega
  · rintro rfl
    rfl

theorem format_leaves_suffix_in_input_witness :
    (formatSuccess [Record.mk "A" "T1", Record.mk "A" "T2", Record.mk "A" "T3",
        Record.mk "A" "T4", Record.mk "A" "T5", Record.mk "A" "T6", Record.mk "A" "T7"]).2
      = [Record.mk "A" "T1", Record.mk "A" "T2", Record.mk "A" "T3",
          Record.mk "A" "T4", Record.mk "A" "T5", Record.mk "A" "T6",
          Record.mk "A" "T7"].drop MAX_RESULTS :=
  (format_leaves_suffix_in_input _).1

/-! ## The claims about the history store -/

theorem isDuplicate_iff (data : List HistoryEntry) (title : String) :
    isDuplicate data title = true ↔ ∃ e ∈ data, e.title = title := by
  simp [isDuplicate, List.any_eq_true]

/-- C8: `add` rejects a title already present, case-sensitively — one
`console.warn`, the data untouched (no timestamp refresh, no move) —
and appends a fresh entry with the given creation time at the end
otherwise.  Consequently adding "X" twice yields one entry titled "X",
and Song1, Song1, Song2 yields exactly [Song1, Song2] in order. -/
theorem add_rejects_duplicates_appends_fresh (s : HistoryState) (now : Nat)
    (title : String) :
    ((∃ e ∈ s.data, e.title = title) →
        (add s now title).data = s.data
        ∧ (add s now title).warnings = s.warnings + 1)
  ∧ ((∀ e ∈ s.data, e.title ≠ title) →
        (add s now title).data = s.data ++ [⟨now, title⟩]
        ∧ (add s now title).warnings = s.warnings)
  ∧ (∀ t1 t2, ((add (add ⟨[], false, 0⟩ t1 "X") t2 "X").data.map HistoryEntry.title) = ["X"])
  ∧ (∀ t1 t2 t3,
      ((add (add (add ⟨[], false, 0⟩ t1 "Song1") t2 "Song1") t3 "Song2").data.map
        HistoryEntry.title) = ["Song1", "Song2"]) := by
  refine ⟨?_, ?_, ?_, ?_⟩
  · intro h
    have hd : isDuplicate s.data title = true := (isDuplicate_iff _ _).mpr h
    simp [add, hd]
  · intro h
    have hd : isDuplicate s.data title = false := by
      rw [Bool.eq_false_iff]
      intro hc
      rcases (isDuplicate_iff _ _).mp hc with ⟨e, he, het⟩
      exact h e he het
    simp [add, hd]
  · intro t1 t2
    simp [add, isDuplicate]
  · intro t1 t2 t3
    simp [add, isDuplicate]

theorem add_rejects_duplicates_appends_fresh_witness :
    ((add ⟨[⟨0, "X"⟩], true, 0⟩ 5 "X").data = [⟨0, "X"⟩]
      ∧ (add ⟨[⟨0, "X"⟩], true, 0⟩ 5 "X").warnings = 1)
  ∧ ((add ⟨[⟨0, "X"⟩], true, 0⟩ 5 "Y").data = [⟨0, "X"⟩, ⟨5, "Y"⟩]
      ∧ (add ⟨[⟨0, "X"⟩], true, 0⟩ 5 "Y").warnings = 0) :=
  ⟨(add_rejects_duplicates_appends_fresh ⟨[⟨0, "X"⟩], true, 0⟩ 5 "X").1
      ⟨⟨0, "X"⟩, by simp, rfl⟩,
   (add_rejects_duplicates_appends_fresh ⟨[⟨0, "X"⟩], true, 0⟩ 5 "Y").2.1
      (by decide)⟩

/-! ### The `remove` loop

`removePass` is an index loop over a live array, so the lemmas go
through the structural reformulation `removeGo` (`removePass_eq_removeGo`)
and characterize it when the deleted title occurs at most once — the
situation `add`'s uniqueness check guarantees for every store that only
ever changed through `add`/`remove`. -/

theorem hist_get?_of_length_le (data : List HistoryEntry) (k : Nat)
    (h : data.length ≤ k) : data.get? k = none := by
  induction data generalizing k with
  | nil => cases k <;> rfl
  | cons a l ih =>
    cases k with
    | zero => exact absurd h (by simp)
    | succ k => exact ih k (Nat.le_of_succ_le_succ h)

theorem removePass_of_length_le (title : String) (steps k : Nat)
    (data : List HistoryEntry) (h : data.length ≤ k) :
    removePass title k steps data = data := by
  induction steps generalizing k with
  | zero => rfl
  | succ steps ih =>
    simp only [removePass, hist_get?_of_length_le data k h]
    exact ih (k + 1) (Nat.le_succ_of_le h)

theorem hist_get?_append_length (acc rest : List HistoryEntry) :
    (acc ++ rest).get? acc.length = rest.get? 0 := by
  induction acc with
  | nil => rfl
  | cons a l ih => simpa using ih

theorem hist_eraseIdx_append_length (acc : List HistoryEntry) (e : HistoryEntry)
    (rest : List HistoryEntry) :
    (acc ++ e :: rest).eraseIdx acc.length = acc ++ rest := by
  induction acc with
  | nil => rfl
  | cons a l ih => simpa [List.eraseIdx] using ih

theorem removePass_eq_removeGo (title : String) (steps : Nat)
    (acc rest : List HistoryEntry) :
    removePass title acc.length steps (acc ++ rest) = removeGo title steps acc rest := by
  induction steps generalizing acc rest with
  | zero => rfl
  | succ steps ih =>
    cases rest with
    | nil =>
      simp only [removePass, removeGo, List.append_nil,
        hist_get?_of_length_le acc acc.length (Nat.le_refl _)]
      exact removePass_of_length_le title steps (acc.length + 1) acc (Nat.le_succ _)
    | cons e rest' =>
      simp only [removePass, removeGo, hist_get?_append_length]
      show removePass title (acc.length + 1) steps
          (if e.title == title then (acc ++ e :: rest').eraseIdx acc.length
           else acc ++ e :: rest') = _
      by_cases he : (e.title == title) = true
      · rw [if_pos he, if_pos he, hist_eraseIdx_append_length]
        cases rest' with
        | nil =>
          simp only [List.append_nil]
          exact removePass_of_length_le title steps (acc.length + 1) acc (Nat.le_succ _)
        | cons f rest'' =>
          have : acc ++ f :: rest'' = (acc ++ [f]) ++ rest'' := by simp
          rw [this]
          have hlen : acc.length + 1 = (acc ++ [f]).length := by simp
          rw [hlen]
          exact ih (acc ++ [f]) rest''
      · rw [if_neg he, if_neg he]
        have : acc ++ e :: rest' = (acc ++ [e]) ++ rest' := by simp
        rw [this]
        have hlen : acc.length + 1 = (acc ++ [e]).length := by simp
        rw [hlen]
        exact ih (acc ++ [e]) rest'

theorem removeGo_no_match (title : String) (steps : Nat)
    (acc rest : List HistoryEntry)
    (h : ∀ e ∈ rest, (e.title == title) = false) (hs : rest.length ≤ steps) :
    removeGo title steps acc rest = acc ++ rest := by
  induction steps generalizing acc rest with
  | zero => rfl
  | succ steps ih =>
    cases rest with
    | nil => simp [removeGo]
    | cons e rest' =>
      simp only [removeGo]
      rw [if_neg (by simp [h e (List.mem_cons_self e rest')])]
      rw [ih (acc ++ [e]) rest' (fun x hx => h x (List.mem_cons_of_mem e hx))
        (by simpa using Nat.le_of_succ_le_succ hs)]
      simp

theorem removeGo_single_match (title : String) (pre : List HistoryEntry)
    (m : HistoryEntry) (post : List HistoryEntry) :
    ∀ (steps : Nat) (acc : List HistoryEntry),
    (∀ e ∈ pre, (e.title == title) = false) → (m.title == title) = true →
    (∀ e ∈ post, (e.title == title) = false) →
    pre.length + 1 + post.length ≤ steps →
    removeGo title steps acc (pre ++ m :: post) = acc ++ pre ++ post := by
  induction pre with
  | nil =>
    intro steps acc _ hm hpost hs
    cases steps with
    | zero => exact absurd hs (by simp)
    | succ steps =>
      simp only [List.nil_append, removeGo]
      rw [if_pos hm]
      cases post with
      | nil => simp
      | cons f post' =>
        show removeGo title steps (acc ++ [f]) post' = acc ++ [] ++ f :: post'
        rw [removeGo_no_match title steps (acc ++ [f]) post'
          (fun x hx => hpost x (List.mem_cons_of_mem f hx))
          (by simp at hs; omega)]
        simp
  | cons p pre' ih =>
    intro steps acc hpre hm hpost hs
    cases steps with
    | zero => exact absurd hs (by simp)
    | succ steps =>
      simp only [List.cons_append, removeGo]
      rw [if_neg (by simp [hpre p (List.mem_cons_self p pre')])]
      rw [ih steps (acc ++ [p]) (fun x hx => hpre x (List.mem_cons_of_mem p hx))
        hm hpost (by simp at hs ⊢; omega)]
      simp

theorem first_match_decomp (title : String) (data : List HistoryEntry) :
    (∃ pre m post, data = pre ++ m :: post
      ∧ (∀ e ∈ pre, (e.title == title) = false) ∧ (m.title == title) = true)
  ∨ (∀ e ∈ data, (e.title == title) = false) := by
  induction data with
  | nil => exact Or.inr (by simp)
  | cons a l ih =>
    by_cases ha : (a.title == title) = true
    · exact Or.inl ⟨[], a, l, by simp, by simp, ha⟩
    · have ha' : (a.title == title) = false := by
        rw [Bool.eq_false_iff]; exact ha
      rcases ih with ⟨pre, m, post, hd, hpre, hm⟩ | hall
      · exact Or.inl ⟨a :: pre, m, post, by simp [hd], by
          intro e he
          rcases List.mem_cons.mp he with rfl | he'
          · exact ha'
          · exact hpre e he', hm⟩
      · refine Or.inr ?_
        intro e he
        rcases List.mem_cons.mp he with rfl | he'
        · exact ha'
        · exact hall e he'

theorem removeData_eq_filter (title : String) (data : List HistoryEntry)
    (h : (data.filter (fun e => e.title == title)).length ≤ 1) :
    removeData title data = data.filter (fun e => !(e.title == title)) := by
  have h0 : ∀ rest : List HistoryEntry,
      removePass title 0 rest.length rest = removeGo title rest.length [] rest := by
    intro rest
    simpa using removePass_eq_removeGo title rest.length [] rest
  rcases first_match_decomp title data with ⟨pre, m, post, hd, hpre, hm⟩ | hall
  · have hpost : ∀ e ∈ post, (e.title == title) = false := by
      rw [hd, List.filter_append, List.length_append,
        List.filter_cons_of_pos (by exact hm), List.length_cons] at h
      have : (post.filter (fun e => e.title == title)).length = 0 := by omega
      have hnil := List.eq_nil_of_length_eq_zero this
      intro e he
      rw [Bool.eq_false_iff]
      exact List.filter_eq_nil.mp hnil e he
    subst hd
    rw [removeData, h0, removeGo_single_match title pre m post _ [] hpre hm hpost
      (by simp; omega)]
    rw [List.filter_append, List.filter_cons_of_neg (by simp [hm])]
    rw [List.filter_eq_self.mpr (by intro a ha; simp [hpre a ha]),
      List.filter_eq_self.mpr (by intro a ha; simp [hpost a ha])]
    simp
  · rw [removeData, h0, removeGo_no_match title data.length [] data hall (Nat.le_refl _)]
    rw [List.filter_eq_self.mpr (by intro a ha; simp [hall a ha])]
    simp

/-- C9 counterexample: on a store holding two adjacent entries titled
"X", `remove "X"` deletes only the first: `splice` shifts the second
"X" onto the just-visited index, and the `forEach` loop never examines
it again.  An entry titled "X" survives, refuting "remove deletes all
entries whose title exactly matches" as a statement about every store
state. -/
theorem remove_skips_adjacent_duplicate :
    ((remove ⟨[⟨0, "X"⟩, ⟨1, "X"⟩], true, 0⟩ "X").data.map HistoryEntry.title) = ["X"] := by
  decide

/-- C9 amended: whenever at most one entry matches the title — which is
the case for every store maintained solely through `add`, whose
duplicate check keeps titles unique — `remove` deletes exactly the
matching entries; removing an absent title is a no-op on the data and,
in every case, no warning or error is signalled. -/
theorem remove_deletes_unique_match (s : HistoryState) (title : String)
    (h : (s.data.filter (fun e => e.title == title)).length ≤ 1) :
    (remove s title).data = s.data.filter (fun e => !(e.title == title))
  ∧ (remove s title).warnings = s.warnings
  ∧ ((∀ e ∈ s.data, (e.title == title) = false) → (remove s title).data = s.data) := by
  have hdata : (remove s title).data = s.data.filter (fun e => !(e.title == title)) := by
    show removeData title s.data = _
    exact removeData_eq_filter title s.data h
  refine ⟨hdata, rfl, ?_⟩
  intro hall
  rw [hdata, List.filter_eq_self.mpr (by intro a ha; simp [hall a ha])]

theorem remove_deletes_unique_match_witness :
    (remove ⟨[⟨0, "A"⟩, ⟨1, "X"⟩, ⟨2, "B"⟩], true, 0⟩ "Y").data
        = [HistoryEntry.mk 0 "A", HistoryEntry.mk 1 "X", HistoryEntry.mk 2 "B"].filter
            (fun e => !(e.title == "Y"))
  ∧ (remove ⟨[⟨0, "A"⟩, ⟨1, "X"⟩, ⟨2, "B"⟩], true, 0⟩ "Y").warnings = 0
  ∧ ((∀ e ∈ [HistoryEntry.mk 0 "A", HistoryEntry.mk 1 "X", HistoryEntry.mk 2 "B"],
        (e.title == "Y") = false) →
      (remove ⟨[⟨0, "A"⟩, ⟨1, "X"⟩, ⟨2, "B"⟩], true, 0⟩ "Y").data
        = [HistoryEntry.mk 0 "A", HistoryEntry.mk 1 "X", HistoryEntry.mk 2 "B"]) :=
  remove_deletes_unique_match ⟨[⟨0, "A"⟩, ⟨1, "X"⟩, ⟨2, "B"⟩], true, 0⟩ "Y" (by decide)

/-- C10: visibility of the history list tracks non-emptiness of the
store across every `add` and `remove`, with no caller involvement:
`updateList` ends with `self.toggle(self.data.length > 0)`, and the
only path that skips `updateList` — a rejected duplicate `add` — also
leaves the data unchanged, so the synchronisation (once it holds)
persists. -/
theorem updateList_syncs_visibility (s : HistoryState) (now : Nat) (title : String)
    (h : s.visible = decide (s.data.length > 0)) :
    (add s now title).visible = decide ((add s now title).data.length > 0)
  ∧ (remove s title).visible = decide ((remove s title).data.length > 0) := by
  constructor
  · by_cases hd : isDuplicate s.data title = true
    · simpa [add, hd] using h
    · simp [add, Bool.eq_false_iff.mpr hd]
  · rfl

theorem updateList_syncs_visibility_witness :
    (add ⟨[⟨0, "A"⟩], true, 3⟩ 7 "A").visible
        = decide ((add ⟨[⟨0, "A"⟩], true, 3⟩ 7 "A").data.length > 0)
  ∧ (remove ⟨[⟨0, "A"⟩], true, 3⟩ "A").visible
        = decide ((remove ⟨[⟨0, "A"⟩], true, 3⟩ "A").data.length > 0) :=
  updateList_syncs_visibility ⟨[⟨0, "A"⟩], true, 3⟩ 7 "A" (by decide)

end MainJs
